import Mathlib

/-!
Verification of the news-extraction and dedup/archive pipeline of the
Marcel Schneider DP World Tour news monitor.

The embedding follows `src/newsfeed/scraper.py`, `src/newsfeed/service.py`
and `src/newsfeed/types.py`:

* `Json` is the JSON-like payload tree handed to `parse_news.walk` (the
  output of `json.loads` on the `__NEXT_DATA__` blob).  Python mappings
  preserve insertion order, so objects are ordered association lists.
* Behaviour that lives in the Python standard library or third-party
  libraries rather than in this repository is abstracted into the `PyLib`
  parameter: `parseDatetime` stands for `_parse_datetime` (scraper.py
  lines 235-253, a composite of `datetime.strptime`/`fromisoformat`;
  `none` models the raised `ValueError`) and `urljoin` stands for
  `urllib.parse.urljoin`.  Every theorem below is proved for all such
  parameters; instants are modelled as integers with the order of
  `datetime` comparison.
* `Json.toStr` models Python `str()`: the identity on strings, the decimal
  rendering on integers, `True`/`False`/`None` on booleans and null, and a
  structural rendering on containers (Python renders containers via
  `repr`; only the string case is ever relevant to the claims).
* `pyStrip`, `pyLower` and `pyStartsWith` model the Python string methods
  `strip`, `lower` and `startswith` over the character sequence of a
  string.
-/

/-- Model of Python `str.strip()` with no argument: drop leading and
trailing whitespace. -/
def pyStrip (s : String) : String :=
  ⟨((s.data.dropWhile Char.isWhitespace).reverse.dropWhile Char.isWhitespace).reverse⟩

/-- Model of Python `str.lower()`: lower-case every character. -/
def pyLower (s : String) : String :=
  ⟨s.data.map Char.toLower⟩

/-- Model of Python `str.startswith(p)`. -/
def pyStartsWith (s p : String) : Bool :=
  p.data.isPrefixOf s.data

/-- Translation of the `NewsItem` dataclass of `src/newsfeed/types.py`.
The `published` instant is an integer timestamp. -/
structure NewsItem where
  identifier : String
  title : String
  url : String
  published : Int
  summary : Option String
deriving DecidableEq

/-- Behaviour external to the repository (Python standard library /
third-party calls made by `scraper.py`), abstracted as parameters:
`parseDatetime` is `_parse_datetime` (returns an instant or raises, the
raise modelled as `none`); `urljoin` is `urllib.parse.urljoin`. -/
structure PyLib where
  parseDatetime : String → Option Int
  urljoin : String → String → String

mutual
/-- JSON-like payload values as produced by `json.loads`. -/
inductive Json where
  | null : Json
  | bool (b : Bool) : Json
  | num (n : Int) : Json
  | str (s : String) : Json
  | arr (xs : JsonList) : Json
  | obj (fs : JsonFields) : Json

/-- Elements of a JSON array, in order. -/
inductive JsonList where
  | nil : JsonList
  | cons (head : Json) (tail : JsonList) : JsonList

/-- Fields of a JSON object, in insertion order (Python dicts are
ordered). -/
inductive JsonFields where
  | nil : JsonFields
  | cons (key : String) (val : Json) (tail : JsonFields) : JsonFields
end

/-- Python truthiness of a JSON value (`if obj[key]:`): `None`, `False`,
`0`, the empty string, the empty list and the empty dict are falsy. -/
def Json.truthy : Json → Bool
  | .null => false
  | .bool b => b
  | .num n => !(n == 0)
  | .str s => !(s == "")
  | .arr .nil => false
  | .arr (.cons _ _) => true
  | .obj .nil => false
  | .obj (.cons _ _ _) => true

mutual
/-- Python `str()` applied to a JSON value: identity on strings, decimal
rendering on numbers, `True`/`False`/`None` on booleans and null, and a
structural rendering on containers. -/
def Json.toStr (j : Json) : String :=
  match j with
  | .null => "None"
  | .bool true => "True"
  | .bool false => "False"
  | .num n => toString n
  | .str s => s
  | .arr xs => "[" ++ JsonList.toStrInner xs ++ "]"
  | .obj fs => "\x7b" ++ JsonFields.toStrInner fs ++ "\x7d"
termination_by structural j

/-- Comma-separated rendering of array elements. -/
def JsonList.toStrInner (xs : JsonList) : String :=
  match xs with
  | .nil => ""
  | .cons x .nil => Json.toStr x
  | .cons x xs => Json.toStr x ++ ", " ++ JsonList.toStrInner xs
termination_by structural xs

/-- Comma-separated rendering of object fields. -/
def JsonFields.toStrInner (fs : JsonFields) : String :=
  match fs with
  | .nil => ""
  | .cons k v .nil => k ++ ": " ++ Json.toStr v
  | .cons k v fs => k ++ ": " ++ Json.toStr v ++ ", " ++ JsonFields.toStrInner fs
termination_by structural fs
end

/-- Keys of an object, in insertion order. -/
def JsonFields.keys : JsonFields → List String
  | .nil => []
  | .cons k _ fs => k :: fs.keys

/-- Python dict lookup `obj[key]` (with `key in obj` as `isSome`): the
value stored under `key`, searched in insertion order. -/
def JsonFields.lookup : JsonFields → String → Option Json
  | .nil, _ => none
  | .cons k v fs, key => if k == key then some v else fs.lookup key

/-- Translation of `_extract_first` (scraper.py lines 224-228): the first
of the given keys that is present in the object with a truthy value, else
`None`. -/
def _extract_first (fs : JsonFields) : List String → Option Json
  | [] => none
  | key :: keys =>
    match fs.lookup key with
    | some v => if v.truthy then some v else _extract_first fs keys
    | none => _extract_first fs keys

/-- Fixed base origin of scraper.py. -/
def BASE_URL : String := "https://www.europeantour.com"

/-- Translation of `_normalise_url` (scraper.py lines 231-232). -/
def _normalise_url (L : PyLib) (url : String) : String :=
  if pyStartsWith url "http" then url else L.urljoin BASE_URL url

/-- Translation of `_candidate_news_dict` (scraper.py lines 256-261): the
lower-cased key set must meet a title-like, a url-like and a date-like key
group. -/
def _candidate_news_dict (fs : JsonFields) : Bool :=
  let lowered := fs.keys.map pyLower
  (["title", "headline", "name"].any fun k => lowered.contains k) &&
  (["url", "slug", "permalink", "path"].any fun k => lowered.contains k) &&
  (["date", "published", "publishdate", "publishdatetime"].any fun k => lowered.contains k)

/-- Translation of `_build_identifier` (scraper.py lines 264-281):
preferentially an explicit id-like field, else `title.strip()` and the
raw date string `strip()`ed, joined by `::`. -/
def _build_identifier (fs : JsonFields) : String :=
  match _extract_first fs ["id", "identifier", "slug", "urlSlug", "canonicalSlug"] with
  | some candidate => candidate.toStr
  | none =>
    let title := (_extract_first fs ["title", "headline", "name"]).elim "" Json.toStr
    let published :=
      (_extract_first fs ["publishDateTime", "publishDate", "published", "date"]).elim "" Json.toStr
    pyStrip title ++ "::" ++ pyStrip published

/-- Outcome of the `try` block of `parse_news.walk` on a candidate node:
a record was appended; the guard `if not (title and url_raw and date_raw)`
fired and `return` left `walk` early; or `_parse_datetime` raised and the
`except` handler swallowed the exception. -/
inductive NodeOutcome where
  | ok (item : NewsItem) : NodeOutcome
  | missingField : NodeOutcome
  | parseFailed : NodeOutcome
deriving DecidableEq

/-- Translation of the `try` block of `parse_news.walk` (scraper.py lines
299-325) on a candidate mapping node. -/
def extractCandidate (L : PyLib) (fs : JsonFields) : NodeOutcome :=
  let title := _extract_first fs ["title", "headline", "name"]
  let url_raw := _extract_first fs ["url", "permalink", "path", "slug"]
  let date_raw := _extract_first fs ["publishDateTime", "publishDate", "published", "date"]
  let summary := _extract_first fs ["summary", "description", "standfirst"]
  match title, url_raw, date_raw with
  | some t, some u, some d =>
    match L.parseDatetime d.toStr with
    | some published =>
      .ok
        { identifier := _build_identifier fs
          title := pyStrip t.toStr
          url := _normalise_url L u.toStr
          published := published
          summary := summary.map fun s => pyStrip s.toStr }
    | none => .parseFailed
  | _, _, _ => .missingField

mutual
/-- Translation of `parse_news.walk` (scraper.py lines 293-327), returning
the records appended to `items` in visit order.  On a candidate mapping
the record (if any) is appended before the children are visited; when the
guard fires, the early `return` skips the children. -/
def walk (L : PyLib) (j : Json) : List NewsItem :=
  match j with
  | .arr xs => walkElems L xs
  | .obj fs =>
    if _candidate_news_dict fs then
      match extractCandidate L fs with
      | .ok item => item :: walkVals L fs
      | .missingField => []
      | .parseFailed => walkVals L fs
    else walkVals L fs
  | _ => []
termination_by structural j

/-- The `for entry in node: walk(entry)` loop over a JSON array. -/
def walkElems (L : PyLib) (xs : JsonList) : List NewsItem :=
  match xs with
  | .nil => []
  | .cons x xs => walk L x ++ walkElems L xs
termination_by structural xs

/-- The `for value in node.values(): walk(value)` loop over an object. -/
def walkVals (L : PyLib) (fs : JsonFields) : List NewsItem :=
  match fs with
  | .nil => []
  | .cons _ v fs => walk L v ++ walkVals L fs
termination_by structural fs
end

/-- Translation of one iteration of the dedup loop of `parse_news`
(scraper.py lines 331-333) on the insertion-ordered `unique` dict,
represented as its value list: a fresh identifier is appended; an existing
entry is replaced in place when the new item's `published` is strictly
later. -/
def dedupInsert (acc : List NewsItem) (item : NewsItem) : List NewsItem :=
  match acc.find? fun e => e.identifier == item.identifier with
  | none => acc ++ [item]
  | some e =>
    if e.published < item.published then
      acc.map fun x => if x.identifier == item.identifier then item else x
    else acc

/-- Insertion step of a stable descending sort by `published`: the new
item is placed before the first element whose `published` is not later
than its own, so elements processed earlier keep their relative order on
ties. -/
def insertDesc (x : NewsItem) : List NewsItem → List NewsItem
  | [] => [x]
  | y :: ys => if x.published < y.published then y :: insertDesc x ys else x :: y :: ys

/-- Model of Python `sorted(values, key=lambda item: item.published,
reverse=True)`: the stable descending order by `published` (ties keep the
input order), built as a stable insertion sort. -/
def sortByPublishedDesc (items : List NewsItem) : List NewsItem :=
  items.foldr insertDesc []

/-- Translation of `parse_news` (scraper.py lines 284-337) from the parsed
payload tree onwards: walk the tree, deduplicate by identifier keeping the
later `published`, and sort by `published` descending. -/
def parse_news (L : PyLib) (payload : Json) : List NewsItem :=
  let items := walk L payload
  let uniqueVals := items.foldl dedupInsert []
  sortByPublishedDesc uniqueVals

/-- Translation of `NewsArchive.has_item` (storage.py lines 60-65); the
archive state is the set of persisted identifiers, as a list. -/
def has_item (store : List String) (identifier : String) : Bool :=
  store.contains identifier

/-- Translation of `NewsArchive.record_items` (storage.py lines 67-79):
`INSERT OR IGNORE` keyed on `identifier` for each item, in order. -/
def record_items (store : List String) (items : List NewsItem) : List String :=
  items.foldl (fun s item => if s.contains item.identifier then s else s ++ [item.identifier]) store

/-- Observable effects of one `MonitorService.run_once` call: the archive
state after `record_items`, the batch passed to `record_items`, the batch
passed to `send_news` (`none` when no notification is sent), and the
returned count. -/
structure RunResult where
  store : List String
  persisted : List NewsItem
  notified : Option (List NewsItem)
  result : Nat
deriving DecidableEq

/-- Translation of `MonitorService.run_once` (service.py lines 33-55)
after a successful fetch returning `items`: `new_items` filters out
identifiers already archived; `record_items(new_items or items, payload)`
persists `new_items` when non-empty (Python list truthiness), else the
full extracted list; Discord is notified exactly when `new_items` is
non-empty and dry-run is off; the count of new items is returned. -/
def run_once (store : List String) (dry_run : Bool) (items : List NewsItem) : RunResult :=
  let new_items := items.filter fun item => !has_item store item.identifier
  let persisted := if new_items.isEmpty then items else new_items
  { store := record_items store persisted
    persisted := persisted
    notified := if !new_items.isEmpty && !dry_run then some new_items else none
    result := new_items.length }

/-- Stand-in for the external datetime parsing and URL joining used by the
concrete evaluations below: exactly one date string parses, and joining
concatenates. -/
def evalLib : PyLib where
  parseDatetime := fun s => if s == "2024-03-05T10:00:00" then some 5 else none
  urljoin := fun base url => base ++ url

/-- A well-formed candidate news node. -/
def nestedNode : Json :=
  .obj (.cons "title" (.str "Nested story")
    (.cons "url" (.str "/news/nested")
      (.cons "publishDate" (.str "2024-03-05T10:00:00") .nil)))

/-- The record `nestedNode` yields when it is visited. -/
def nestedRecord : NewsItem :=
  { identifier := "Nested story::2024-03-05T10:00:00"
    title := "Nested story"
    url := "https://www.europeantour.com/news/nested"
    published := 5
    summary := none }

/-- Fields of a candidate node whose `title` value is the empty string
(so the guard of `parse_news.walk` fires) with the well-formed candidate
`nestedNode` nested inside one of its values. -/
def emptyTitleParentFields : JsonFields :=
  .cons "title" (.str "")
    (.cons "url" (.str "/news/outer")
      (.cons "date" (.str "2024-03-05T10:00:00")
        (.cons "content" nestedNode .nil)))

/-- The mapping node with fields `emptyTitleParentFields`. -/
def emptyTitleParent : Json :=
  .obj emptyTitleParentFields

/-- Stand-in external behaviour for the whitespace-title evaluations:
exactly the date string `D` parses. -/
def wsLib : PyLib where
  parseDatetime := fun s => if s == "D" then some 0 else none
  urljoin := fun base url => base ++ url

/-- A candidate node whose raw `title` value is a single space: truthy (a
non-empty string), so the guard does not fire, but stripping leaves the
empty string. -/
def wsTitleNode : Json :=
  .obj (.cons "title" (.str " ")
    (.cons "url" (.str "/a")
      (.cons "publishDate" (.str "D") .nil)))

/-- A well-formed candidate node with a title that strips to `Hello`. -/
def helloNode : Json :=
  .obj (.cons "title" (.str "Hello ")
    (.cons "url" (.str "/x")
      (.cons "publishDate" (.str "D") .nil)))

/-- The record `helloNode` yields. -/
def helloRecord : NewsItem :=
  { identifier := "Hello::D"
    title := "Hello"
    url := "https://www.europeantour.com/x"
    published := 0
    summary := none }

/-- C2: one `run_once` call after extraction returned `items`, against an
archive whose persisted identifier set is `store`: `new_records` is
exactly the sub-list of extracted records whose identifier is absent from
the store; the batch handed to `record_items` is exactly `new_records`
when it is non-empty and the full extracted list otherwise; and the
notifier receives a batch if and only if `new_records` is non-empty and
dry-run is off. -/
theorem run_once_gate (store : List String) (dry_run : Bool) (items : List NewsItem) :
    (∀ r, r ∈ items.filter (fun item => !has_item store item.identifier) ↔
      r ∈ items ∧ has_item store r.identifier = false) ∧
    (run_once store dry_run items).persisted =
      (if items.filter (fun item => !has_item store item.identifier) = [] then items
        else items.filter (fun item => !has_item store item.identifier)) ∧
    ((run_once store dry_run items).notified ≠ none ↔
      items.filter (fun item => !has_item store item.identifier) ≠ [] ∧ dry_run = false) := by
  refine ⟨fun r => ?_, ?_, ?_⟩
  · simp [List.mem_filter]
  · simp only [run_once]
    by_cases h : items.filter (fun item => !has_item store item.identifier) = []
    · simp [h]
    · simp [h, List.isEmpty_iff]
  · simp only [run_once]
    by_cases h : items.filter (fun item => !has_item store item.identifier) = []
    · simp [h]
    · cases dry_run
      · simp [h, List.isEmpty_iff]
      · simp [h, List.isEmpty_iff]

/-- Replacing the entry for the inserted identifier never changes the
identifier stored at a position of the `unique` dict. -/
theorem dedupInsert_replace_identifier (item x : NewsItem) :
    ((fun x => if x.identifier == item.identifier then item else x) x).identifier
      = x.identifier := by
  by_cases h : x.identifier = item.identifier <;> simp [h]

/-- Every entry of the `unique` dict after one dedup step was already an
entry or is the item just processed. -/
theorem mem_dedupInsert {acc : List NewsItem} {x r : NewsItem}
    (h : r ∈ dedupInsert acc x) : r ∈ acc ∨ r = x := by
  cases hf : acc.find? (fun e => e.identifier == x.identifier) with
  | none =>
    simp only [dedupInsert, hf] at h
    rcases List.mem_append.mp h with h' | h'
    · exact Or.inl h'
    · exact Or.inr (List.mem_singleton.mp h')
  | some e =>
    simp only [dedupInsert, hf] at h
    split at h
    · rcases List.mem_map.mp h with ⟨a, ha, rfl⟩
      by_cases hid : a.identifier = x.identifier
      · simp [hid]
      · simp only [hid, beq_iff_eq, if_neg]
        exact Or.inl ha
    · exact Or.inl h

/-- One dedup step preserves pairwise-distinct identifiers. -/
theorem pairwise_ne_dedupInsert {acc : List NewsItem} (x : NewsItem)
    (h : acc.Pairwise fun a b => a.identifier ≠ b.identifier) :
    (dedupInsert acc x).Pairwise fun a b => a.identifier ≠ b.identifier := by
  cases hf : acc.find? (fun e => e.identifier == x.identifier) with
  | none =>
    simp only [dedupInsert, hf]
    have hnone := List.find?_eq_none.mp hf
    refine List.pairwise_append.mpr ⟨h, List.pairwise_singleton _ _, ?_⟩
    intro a ha b hb
    rw [List.mem_singleton.mp hb]
    exact fun hab => (hnone a ha) (by simp [hab])
  | some e =>
    simp only [dedupInsert, hf]
    split
    · refine List.pairwise_map.mpr ?_
      refine h.imp ?_
      intro a b hab
      rw [dedupInsert_replace_identifier x a, dedupInsert_replace_identifier x b]
      exact hab
    · exact h

/-- After one dedup step the dict has an entry for the processed item's
identifier whose `published` is at least that of the processed item. -/
theorem cover_dedupInsert (acc : List NewsItem) (x : NewsItem) :
    ∃ r ∈ dedupInsert acc x, r.identifier = x.identifier ∧ x.published ≤ r.published := by
  cases hf : acc.find? (fun e => e.identifier == x.identifier) with
  | none =>
    simp only [dedupInsert, hf]
    exact ⟨x, List.mem_append.mpr (Or.inr (List.mem_singleton.mpr rfl)), rfl, le_refl _⟩
  | some e =>
    have heid : e.identifier = x.identifier := by
      have := List.find?_some hf
      simpa using this
    simp only [dedupInsert, hf]
    split
    · refine ⟨x, ?_, rfl, le_refl _⟩
      refine List.mem_map.mpr ⟨e, List.mem_of_find?_eq_some hf, ?_⟩
      simp [heid]
    · next hlt => exact ⟨e, List.mem_of_find?_eq_some hf, heid, le_of_not_lt hlt⟩

/-- Entries of a list with pairwise-distinct identifiers are determined by
their identifier. -/
theorem pairwise_ne_unique {l : List NewsItem}
    (h : l.Pairwise fun a b => a.identifier ≠ b.identifier)
    {a b : NewsItem} (ha : a ∈ l) (hb : b ∈ l)
    (hid : a.identifier = b.identifier) : a = b := by
  induction l with
  | nil => cases ha
  | cons x xs ih =>
    rcases List.pairwise_cons.mp h with ⟨hx, hxs⟩
    rcases List.mem_cons.mp ha with rfl | ha'
    · rcases List.mem_cons.mp hb with rfl | hb'
      · rfl
      · exact absurd hid (hx b hb')
    · rcases List.mem_cons.mp hb with rfl | hb'
      · exact absurd hid.symm (hx a ha')
      · exact ih hxs ha' hb'

/-- One dedup step keeps, for every existing entry, an entry with the same
identifier and a `published` value at least as late. -/
theorem mono_dedupInsert {acc : List NewsItem} (x : NewsItem) {e : NewsItem}
    (he : e ∈ acc)
    (hpw : acc.Pairwise fun a b => a.identifier ≠ b.identifier) :
    ∃ r ∈ dedupInsert acc x, r.identifier = e.identifier ∧ e.published ≤ r.published := by
  cases hf : acc.find? (fun f => f.identifier == x.identifier) with
  | none =>
    simp only [dedupInsert, hf]
    exact ⟨e, List.mem_append.mpr (Or.inl he), rfl, le_refl _⟩
  | some f =>
    have hfid : f.identifier = x.identifier := by
      have := List.find?_some hf
      simpa using this
    have hfmem : f ∈ acc := List.mem_of_find?_eq_some hf
    simp only [dedupInsert, hf]
    split
    · next hlt =>
      refine ⟨(fun y => if y.identifier == x.identifier then x else y) e,
        List.mem_map.mpr ⟨e, he, rfl⟩, ?_, ?_⟩
      · by_cases hid : e.identifier = x.identifier <;> simp [hid]
      · by_cases hid : e.identifier = x.identifier
        · have hef : e = f := pairwise_ne_unique hpw he hfmem (hid.trans hfid.symm)
          simp only [hid, beq_self_eq_true, if_pos]
          exact le_of_lt (hef ▸ hlt)
        · simp [hid]
    · exact ⟨e, he, rfl, le_refl _⟩

/-- The dedup fold preserves pairwise-distinct identifiers. -/
theorem pairwise_ne_dedup (items : List NewsItem) :
    ∀ acc, (acc.Pairwise fun a b => a.identifier ≠ b.identifier) →
      ((items.foldl dedupInsert acc).Pairwise fun a b => a.identifier ≠ b.identifier) := by
  induction items with
  | nil => intro acc h; simpa using h
  | cons x xs ih =>
    intro acc h
    simpa using ih (dedupInsert acc x) (pairwise_ne_dedupInsert x h)

/-- Every entry of the dedup fold result comes from the initial dict or
from the processed items. -/
theorem mem_dedup (items : List NewsItem) :
    ∀ acc r, r ∈ items.foldl dedupInsert acc → r ∈ acc ∨ r ∈ items := by
  induction items with
  | nil => intro acc r h; exact Or.inl (by simpa using h)
  | cons x xs ih =>
    intro acc r h
    rcases ih (dedupInsert acc x) r (by simpa using h) with h' | h'
    · rcases mem_dedupInsert h' with h'' | h''
      · exact Or.inl h''
      · exact Or.inr (List.mem_cons.mpr (Or.inl h''))
    · exact Or.inr (List.mem_cons.mpr (Or.inr h'))

/-- The dedup fold keeps, for every initial entry, an entry with the same
identifier and a `published` value at least as late. -/
theorem mono_dedup (items : List NewsItem) :
    ∀ acc, (acc.Pairwise fun a b => a.identifier ≠ b.identifier) →
      ∀ e ∈ acc, ∃ r ∈ items.foldl dedupInsert acc,
        r.identifier = e.identifier ∧ e.published ≤ r.published := by
  induction items with
  | nil => intro acc _ e he; exact ⟨e, by simpa using he, rfl, le_refl _⟩
  | cons x xs ih =>
    intro acc hpw e he
    rcases mono_dedupInsert x he hpw with ⟨r₁, hr₁, hid₁, hle₁⟩
    rcases ih (dedupInsert acc x) (pairwise_ne_dedupInsert x hpw) r₁ hr₁ with
      ⟨r₂, hr₂, hid₂, hle₂⟩
    exact ⟨r₂, by simpa using hr₂, hid₂.trans hid₁, le_trans hle₁ hle₂⟩

/-- The dedup fold result covers every processed item: some entry carries
the item's identifier with a `published` value at least as late. -/
theorem cover_dedup (items : List NewsItem) :
    ∀ acc, (acc.Pairwise fun a b => a.identifier ≠ b.identifier) →
      ∀ a ∈ items, ∃ r ∈ items.foldl dedupInsert acc,
        r.identifier = a.identifier ∧ a.published ≤ r.published := by
  induction items with
  | nil => intro acc _ a ha; cases ha
  | cons x xs ih =>
    intro acc hpw a ha
    rcases List.mem_cons.mp ha with rfl | ha'
    · rcases cover_dedupInsert acc a with ⟨r₁, hr₁, hid₁, hle₁⟩
      rcases mono_dedup xs (dedupInsert acc a) (pairwise_ne_dedupInsert a hpw) r₁ hr₁ with
        ⟨r₂, hr₂, hid₂, hle₂⟩
      exact ⟨r₂, by simpa using hr₂, hid₂.trans hid₁, le_trans hle₁ hle₂⟩
    · rcases ih (dedupInsert acc x) (pairwise_ne_dedupInsert x hpw) a ha' with
        ⟨r, hr, hid, hle⟩
      exact ⟨r, by simpa using hr, hid, hle⟩

/-- Inserting into the stable descending sort is a permutation of
prepending. -/
theorem insertDesc_perm (x : NewsItem) (l : List NewsItem) :
    List.Perm (insertDesc x l) (x :: l) := by
  induction l with
  | nil => exact List.Perm.refl _
  | cons y ys ih =>
    by_cases h : x.published < y.published
    · simpa [insertDesc, h] using ((ih.cons y).trans (List.Perm.swap x y ys))
    · simp [insertDesc, h]

/-- The stable descending sort permutes its input. -/
theorem sortByPublishedDesc_perm (l : List NewsItem) :
    List.Perm (sortByPublishedDesc l) l := by
  induction l with
  | nil => exact List.Perm.refl _
  | cons x xs ih =>
    exact (insertDesc_perm x (sortByPublishedDesc xs)).trans (ih.cons x)

/-- Inserting preserves descending order by `published`. -/
theorem sorted_insertDesc (x : NewsItem) {l : List NewsItem}
    (h : l.Pairwise fun a b => b.published ≤ a.published) :
    (insertDesc x l).Pairwise fun a b => b.published ≤ a.published := by
  induction l with
  | nil => simp [insertDesc]
  | cons y ys ih =>
    rcases List.pairwise_cons.mp h with ⟨hy, hys⟩
    by_cases hlt : x.published < y.published
    · rw [insertDesc, if_pos hlt]
      refine List.pairwise_cons.mpr ⟨?_, ih hys⟩
      intro b hb
      rcases List.mem_cons.mp ((insertDesc_perm x ys).mem_iff.mp hb) with rfl | hbys
      · exact le_of_lt hlt
      · exact hy b hbys
    · rw [insertDesc, if_neg hlt]
      refine List.pairwise_cons.mpr ⟨?_, h⟩
      intro b hb
      rcases List.mem_cons.mp hb with rfl | hb'
      · exact le_of_not_lt hlt
      · exact le_trans (hy b hb') (le_of_not_lt hlt)

/-- The stable descending sort is sorted by `published` descending. -/
theorem sorted_sortByPublishedDesc (l : List NewsItem) :
    (sortByPublishedDesc l).Pairwise fun a b => b.published ≤ a.published := by
  induction l with
  | nil => simp [sortByPublishedDesc]
  | cons x xs ih => exact sorted_insertDesc x ih

/-- C3: for every external-library behaviour and payload tree, the record
list returned by extraction has pairwise-distinct identifiers and is
sorted in descending order of the `published` instant; every returned
record is one of the records yielded by candidate nodes during the walk;
every record yielded during the walk is represented by a returned record
with the same identifier and a `published` at least as late; and every
returned record's `published` dominates all walked records sharing its
identifier.  In particular, when two candidate nodes yield the same
identifier with different `published` values, exactly one record is
returned for that identifier and it carries the later value. -/
theorem parse_news_unique_sorted_latest (L : PyLib) (payload : Json) :
    ((parse_news L payload).Pairwise fun a b => a.identifier ≠ b.identifier) ∧
    ((parse_news L payload).Pairwise fun a b => b.published ≤ a.published) ∧
    (∀ r ∈ parse_news L payload, r ∈ walk L payload) ∧
    (∀ a ∈ walk L payload, ∃ r ∈ parse_news L payload,
      r.identifier = a.identifier ∧ a.published ≤ r.published) ∧
    (∀ r ∈ parse_news L payload, ∀ a ∈ walk L payload,
      a.identifier = r.identifier → a.published ≤ r.published) := by
  have hdef : parse_news L payload
      = sortByPublishedDesc ((walk L payload).foldl dedupInsert []) := rfl
  have hperm : List.Perm (parse_news L payload) ((walk L payload).foldl dedupInsert []) := by
    rw [hdef]; exact sortByPublishedDesc_perm _
  have hpwd : ((walk L payload).foldl dedupInsert []).Pairwise
      fun a b => a.identifier ≠ b.identifier :=
    pairwise_ne_dedup (walk L payload) [] (List.Pairwise.nil)
  refine ⟨?_, ?_, ?_, ?_, ?_⟩
  · exact (hperm.pairwise_iff fun hab => hab.symm).mpr hpwd
  · rw [hdef]; exact sorted_sortByPublishedDesc _
  · intro r hr
    rcases mem_dedup (walk L payload) [] r (hperm.mem_iff.mp hr) with h | h
    · cases h
    · exact h
  · intro a ha
    rcases cover_dedup (walk L payload) [] (List.Pairwise.nil) a ha with ⟨r, hr, hid, hle⟩
    exact ⟨r, hperm.mem_iff.mpr hr, hid, hle⟩
  · intro r hr a ha hid
    rcases cover_dedup (walk L payload) [] (List.Pairwise.nil) a ha with ⟨r', hr', hid', hle'⟩
    have : r' = r :=
      pairwise_ne_unique hpwd hr' (hperm.mem_iff.mp hr) (hid'.trans hid)
    exact this ▸ hle'

/-- A value returned by `_extract_first` is always truthy (the Python code
returns `obj[key]` only under `if key in obj and obj[key]`). -/
theorem _extract_first_truthy {fs : JsonFields} :
    ∀ {keys : List String} {v : Json}, _extract_first fs keys = some v → v.truthy = true := by
  intro keys
  induction keys with
  | nil => intro v h; cases h
  | cons k ks ih =>
    intro v h
    cases hk : fs.lookup k with
    | some w =>
      simp only [_extract_first, hk] at h
      split at h
      · next hw => cases h; exact hw
      · exact ih h
    | none =>
      simp only [_extract_first, hk] at h
      exact ih h

mutual
/-- Every record yielded while walking a JSON value comes from a
successful candidate extraction on some mapping node. -/
theorem walk_extract (L : PyLib) (j : Json) :
    ∀ it ∈ walk L j, ∃ fs, extractCandidate L fs = NodeOutcome.ok it := by
  match j with
  | .null => intro it h; simp [walk] at h
  | .bool b => intro it h; simp [walk] at h
  | .num n => intro it h; simp [walk] at h
  | .str s => intro it h; simp [walk] at h
  | .arr xs =>
    intro it h
    rw [walk] at h
    exact walkElems_extract L xs it h
  | .obj fs =>
    intro it h
    rw [walk] at h
    by_cases hc : _candidate_news_dict fs = true
    · rw [if_pos hc] at h
      cases hx : extractCandidate L fs with
      | ok item =>
        rw [hx] at h
        rcases List.mem_cons.mp h with rfl | h'
        · exact ⟨fs, hx⟩
        · exact walkVals_extract L fs it h'
      | missingField => rw [hx] at h; cases h
      | parseFailed => rw [hx] at h; exact walkVals_extract L fs it h
    · rw [if_neg hc] at h
      exact walkVals_extract L fs it h
termination_by structural j

/-- As `walk_extract`, over the elements of an array. -/
theorem walkElems_extract (L : PyLib) (xs : JsonList) :
    ∀ it ∈ walkElems L xs, ∃ fs, extractCandidate L fs = NodeOutcome.ok it := by
  match xs with
  | .nil => intro it h; simp [walkElems] at h
  | .cons x t =>
    intro it h
    rw [walkElems] at h
    rcases List.mem_append.mp h with h' | h'
    · exact walk_extract L x it h'
    · exact walkElems_extract L t it h'
termination_by structural xs

/-- As `walk_extract`, over the values of an object. -/
theorem walkVals_extract (L : PyLib) (fs : JsonFields) :
    ∀ it ∈ walkVals L fs, ∃ gs, extractCandidate L gs = NodeOutcome.ok it := by
  match fs with
  | .nil => intro it h; simp [walkVals] at h
  | .cons k v t =>
    intro it h
    rw [walkVals] at h
    rcases List.mem_append.mp h with h' | h'
    · exact walk_extract L v it h'
    · exact walkVals_extract L t it h'
termination_by structural fs
end

/-- A successfully extracted record's title is the stripped string
rendering of a truthy raw title value taken from the node. -/
theorem extractCandidate_title {L : PyLib} {fs : JsonFields} {item : NewsItem}
    (h : extractCandidate L fs = NodeOutcome.ok item) :
    ∃ t : Json, _extract_first fs ["title", "headline", "name"] = some t ∧
      t.truthy = true ∧ item.title = pyStrip t.toStr := by
  cases ht : _extract_first fs ["title", "headline", "name"] with
  | none =>
    exfalso
    cases hu : _extract_first fs ["url", "permalink", "path", "slug"] <;>
      cases hd : _extract_first fs ["publishDateTime", "publishDate", "published", "date"] <;>
        simp [extractCandidate, ht, hu, hd] at h
  | some t =>
    refine ⟨t, rfl, _extract_first_truthy ht, ?_⟩
    cases hu : _extract_first fs ["url", "permalink", "path", "slug"] with
    | none => simp [extractCandidate, ht, hu] at h
    | some u =>
      cases hd : _extract_first fs ["publishDateTime", "publishDate", "published", "date"] with
      | none => simp [extractCandidate, ht, hu, hd] at h
      | some d =>
        cases hp : L.parseDatetime d.toStr with
        | none => simp [extractCandidate, ht, hu, hd, hp] at h
        | some published =>
          simp only [extractCandidate, ht, hu, hd, hp] at h
          cases h
          rfl

/-- Every returned record was yielded during the walk (the dedup dict
selects among walked records, and sorting permutes). -/
theorem mem_walk_of_mem_parse_news {L : PyLib} {payload : Json} {r : NewsItem}
    (hr : r ∈ parse_news L payload) : r ∈ walk L payload := by
  have hperm : List.Perm (parse_news L payload) ((walk L payload).foldl dedupInsert []) :=
    sortByPublishedDesc_perm _
  rcases mem_dedup (walk L payload) [] r (hperm.mem_iff.mp hr) with h | h
  · cases h
  · exact h

/-- C4 (amended): every record returned by extraction was produced by a
successful candidate extraction whose raw title value is truthy (hence a
non-empty value), and the record's title is exactly the stripped string
rendering of that raw title value; the title therefore carries no leading
or trailing whitespace, but it can be the empty string when the raw title
consists solely of whitespace. -/
theorem parse_news_title_stripped_raw (L : PyLib) (payload : Json) (r : NewsItem)
    (hr : r ∈ parse_news L payload) :
    ∃ fs t, extractCandidate L fs = NodeOutcome.ok r ∧
      _extract_first fs ["title", "headline", "name"] = some t ∧
      t.truthy = true ∧ r.title = pyStrip t.toStr := by
  rcases walk_extract L payload r (mem_walk_of_mem_parse_news hr) with ⟨fs, hok⟩
  rcases extractCandidate_title hok with ⟨t, ht, htruthy, htitle⟩
  exact ⟨fs, t, hok, ht, htruthy, htitle⟩

/-- Witness for `parse_news_title_stripped_raw` at a concrete payload: the
node with raw title `Hello ` yields the record `helloRecord`, whose title
is the stripped rendering of a truthy raw title value. -/
theorem parse_news_title_stripped_raw_witness :
    ∃ fs t, extractCandidate wsLib fs = NodeOutcome.ok helloRecord ∧
      _extract_first fs ["title", "headline", "name"] = some t ∧
      t.truthy = true ∧ helloRecord.title = pyStrip t.toStr :=
  parse_news_title_stripped_raw wsLib helloNode helloRecord (by decide)

/-- C4 counterexample: a candidate node whose raw `title` is the single
space `" "` (truthy, so the guard does not fire) produces a returned
record whose title is the empty string — refuting the claim that no
returned record has an empty title. -/
theorem parse_news_empty_title_possible :
    ∃ r ∈ parse_news wsLib wsTitleNode, r.title = "" := by decide

/-- C1: evaluation at a failing input.  `emptyTitleParentFields` is a
candidate mapping (first conjunct) whose `title` value is the empty
string, so the guard fires (second conjunct) and the early `return` of
`parse_news.walk` skips the children loop: the traversal of the parent
yields no records (third and fourth conjuncts) even though the well-formed
candidate nested inside its `content` value yields a record when visited
(fifth conjunct).  This refutes the claim that the children of such a node
are still traversed: a traversal that continued into the children would
have returned the nested record. -/
theorem walk_skips_children_of_malformed_candidate :
    _candidate_news_dict emptyTitleParentFields = true ∧
    extractCandidate evalLib emptyTitleParentFields = NodeOutcome.missingField ∧
    walk evalLib emptyTitleParent = [] ∧
    parse_news evalLib emptyTitleParent = [] ∧
    parse_news evalLib nestedNode = [nestedRecord] := by decide
